import Mathlib

/-!
Verification of the budget-constrained bidding controllers in `src/Bidder.py`
(repository SPBpaper).  The Python floats are embedded as exact rationals `ℚ`
for the algorithmic code, and as real numbers `ℝ` for the analytic response
curve (which uses a square root).  Python while-loops are embedded as
structural recursion (the binary search carries fuel that provably suffices),
and the external scipy curve-fitting routine is abstracted as an oracle
returning `Option (ℚ × ℚ)` (`none` models a caught fitting exception, mirroring
`fit_model` returning `model_ready = False`).
-/

/-- Coordinate-wise mean of a run of samples, embedding
`list(map(np.mean, zip(*current)))` from `aggregate_near_sample`. -/
def runMean (run : List (ℚ × ℚ)) : ℚ × ℚ :=
  ((run.map Prod.fst).sum / run.length, (run.map Prod.snd).sum / run.length)

/-- Embeds the `for s in samples` loop of `aggregate_near_sample`
(src/Bidder.py lines 66-79).  `result` and `current` are the accumulators of
the Python loop.  Note that in the `else` branch the Python code sets
`current = []` WITHOUT appending `s`, so the sample that closes a run is
dropped; this embedding reproduces that faithfully. -/
def aggLoop (distance : ℚ) : List (ℚ × ℚ) → List (ℚ × ℚ) → List (ℚ × ℚ) → List (ℚ × ℚ)
  | result, current, [] => if current = [] then result else result ++ [runMean current]
  | result, current, s :: rest =>
    if current = [] ∨ s.1 < (current.headD (0, 0)).1 * (1 + distance) then
      aggLoop distance result (current ++ [s]) rest
    else
      aggLoop distance (result ++ [runMean current]) [] rest

/-- Embeds `aggregate_near_sample(samples, distance=1e-6)`.  The Python
`distance` parameter has default `1e-6`; here it is passed explicitly
(callers in the source always use the default). -/
def aggregate_near_sample (samples : List (ℚ × ℚ)) (distance : ℚ) : List (ℚ × ℚ) :=
  aggLoop distance [] [] samples

/-- Embeds the `while l < r` binary search inside `increasing_subsequence`
(src/Bidder.py lines 85-92).  The fuel argument bounds the number of loop
iterations; it is always called with fuel `≥ r - l`, which suffices because
`r - l` strictly decreases at every iteration. -/
def bsearchFuel (res : List (ℚ × ℚ)) (v : ℚ) : ℕ → ℕ → ℕ → ℕ
  | 0, l, _ => l
  | fuel + 1, l, r =>
    if l < r then
      let mid := (l + r) / 2
      if (res.getD mid (0, 0)).2 ≤ v then bsearchFuel res v fuel (mid + 1) r
      else bsearchFuel res v fuel l mid
    else l

/-- The binary search of `increasing_subsequence` on the full result list:
`l = 0`, `r = len(result)`; fuel `len(result)` is enough since `r - l`
strictly decreases each iteration. -/
def bsearch (res : List (ℚ × ℚ)) (v : ℚ) : ℕ :=
  bsearchFuel res v res.length 0 res.length

/-- One iteration of the outer `for s in samples` loop of
`increasing_subsequence`: find the slot by binary search, then either append
(`l == len(result)`) or overwrite (`result[l] = s`). -/
def insertStep (res : List (ℚ × ℚ)) (s : ℚ × ℚ) : List (ℚ × ℚ) :=
  let l := bsearch res s.2
  if l = res.length then res ++ [s] else res.set l s

/-- Embeds `increasing_subsequence(samples)` (src/Bidder.py lines 82-97). -/
def increasing_subsequence (samples : List (ℚ × ℚ)) : List (ℚ × ℚ) :=
  samples.foldl insertStep []

/-- Embeds `liner_solve(x1, y1, x2, y2, x)` (src/Bidder.py lines 100-103). -/
def liner_solve (x1 y1 x2 y2 x : ℚ) : ℚ :=
  if |x1 - x2| < 1 / 1000000 then (y1 + y2) / 2
  else y1 + (y2 - y1) * (x - x1) / (x2 - x1)

/-- Lexicographic strict order on pairs, matching how Python `sorted` compares
the two-element lists stored in `bid2spend_history`. -/
def pairLt (p q : ℚ × ℚ) : Bool :=
  decide (p.1 < q.1 ∨ (p.1 = q.1 ∧ p.2 < q.2))

/-- Insertion of one element into a lexicographically sorted list (stable). -/
def insertPair (x : ℚ × ℚ) : List (ℚ × ℚ) → List (ℚ × ℚ)
  | [] => [x]
  | y :: ys => if pairLt x y then x :: y :: ys else y :: insertPair x ys

/-- Embeds Python `sorted(bid2spend)`: stable ascending lexicographic sort. -/
def sortPairs (l : List (ℚ × ℚ)) : List (ℚ × ℚ) :=
  l.foldr insertPair []

/-- Embeds the `while i < len(samples) and samples[i][1] < target` scan of
`impc` together with the trailing interpolation (src/Bidder.py lines 112-122).
`bid`/`spend` are the loop accumulators (initially 0); reaching the end of the
list corresponds to `i == len(samples)`, where the code extrapolates from the
origin and the last sample, which at that point equals `(bid, spend)`. -/
def impcLoop (target : ℚ) : ℚ → ℚ → List (ℚ × ℚ) → ℚ
  | bid, spend, [] => liner_solve 0 0 spend bid target
  | bid, spend, s :: rest =>
    if s.2 < target then impcLoop target s.1 s.2 rest
    else liner_solve spend bid s.2 s.1 target

/-- Embeds `impc(bid2spend, target)` (src/Bidder.py lines 106-122). -/
def impc (bid2spend : List (ℚ × ℚ)) (target : ℚ) : ℚ :=
  let samples := increasing_subsequence
    (aggregate_near_sample (sortPairs bid2spend) (1 / 1000000))
  if samples = [] then 1 else impcLoop target 0 0 samples

/-- Embeds Python list slicing `l[-memory:]` used to truncate histories:
for `memory = 0` Python returns the whole list, otherwise the last
`memory` elements. -/
def takeLastPy {α : Type} (memory : ℕ) (l : List α) : List α :=
  if memory = 0 then l else l.drop (l.length - memory)

/-- State of `BudgetRistrictedBidder` (src/Bidder.py lines 39-51).  The
budget drawn by `rng.uniform` at construction is a parameter of the state. -/
structure BRBState where
  budget : ℚ
  spending : ℚ

namespace BudgetRistrictedBidder

/-- Embeds `BudgetRistrictedBidder.charge` (src/Bidder.py lines 47-48):
adds the price unconditionally. -/
def charge (st : BRBState) (price : ℚ) (r : ℕ) (estimated_CTR value : ℚ) : BRBState :=
  { st with spending := st.spending + price }

end BudgetRistrictedBidder

/-- State of `IMPCBudgetBidder` (src/Bidder.py lines 125-165). -/
structure IMPCState where
  budget : ℚ
  spending : ℚ
  rounds_per_step : ℕ
  rounds_per_iter : ℕ
  target_step_spending : ℚ
  bid2spend_history : List (ℚ × ℚ)
  bid_step : ℚ
  roi_bid : ℚ
  step_spending : ℚ
  memory : ℕ

namespace IMPCBudgetBidder

/-- Embeds `IMPCBudgetBidder.__init__`: the uniformly drawn budget is a
parameter; `context`-free fields follow lines 127-136 of the source. -/
def init (budget : ℚ) (rounds_per_iter rounds_per_step : ℕ) (bid_step : ℚ)
    (memory : ℕ) : IMPCState :=
  { budget := budget
    spending := 0
    rounds_per_step := rounds_per_step
    rounds_per_iter := rounds_per_iter
    target_step_spending := budget * rounds_per_step / rounds_per_iter
    bid2spend_history := []
    bid_step := bid_step
    roi_bid := 1
    step_spending := 0
    memory := memory }

/-- Embeds `IMPCBudgetBidder.calc_roi_bid` (src/Bidder.py lines 138-143). -/
def calc_roi_bid (st : IMPCState) (target_step_spending : ℚ) : ℚ :=
  if st.step_spending < 1 / 1000000 then st.roi_bid + st.bid_step
  else
    min (max (impc st.bid2spend_history target_step_spending)
          (st.roi_bid - st.bid_step))
      (st.roi_bid + st.bid_step)

/-- Embeds `IMPCBudgetBidder.charge` (src/Bidder.py lines 145-152); the
`estimated_CTR` and `vlaue` arguments are unused in the source body. -/
def charge (st : IMPCState) (price : ℚ) (cur_round : ℕ)
    (estimated_CTR vlaue : ℚ) : IMPCState :=
  let st1 := { st with spending := st.spending + price
                       step_spending := st.step_spending + price }
  if cur_round % st1.rounds_per_step = 0 then
    let st2 := { st1 with
      bid2spend_history := st1.bid2spend_history ++ [(st1.roi_bid, st1.step_spending)] }
    let newRoi := calc_roi_bid st2 st2.target_step_spending
    { st2 with roi_bid := newRoi
               step_spending := 0
               bid2spend_history := takeLastPy st2.memory st2.bid2spend_history }
  else st1

/-- Embeds `IMPCBudgetBidder.bid` (src/Bidder.py lines 154-157); the unused
`context` argument is omitted. -/
def bid (st : IMPCState) (value estimated_CTR : ℚ) : ℚ :=
  if st.spending < st.budget then value * estimated_CTR * st.roi_bid else 0

/-- Embeds `IMPCBudgetBidder.reset` (src/Bidder.py lines 162-165): it clears
the history, zeroes `spending` and restores `roi_bid`, but does NOT touch
`step_spending`. -/
def reset (st : IMPCState) : IMPCState :=
  { st with bid2spend_history := [], spending := 0, roi_bid := 1 }

end IMPCBudgetBidder

namespace BidCapBidder

/-- Embeds `BidCapBidder.charge` (src/Bidder.py lines 170-172): delegate to
the parent, then cap `roi_bid` at 1. -/
def charge (st : IMPCState) (price : ℚ) (cur_round : ℕ)
    (estimated_CTR value : ℚ) : IMPCState :=
  let st' := IMPCBudgetBidder.charge st price cur_round estimated_CTR value
  { st' with roi_bid := min st'.roi_bid 1 }

end BidCapBidder

/-- Embeds `opt_spend(a, b)` (src/Bidder.py lines 179-180), over `ℚ` for use
in the SPB controller state. -/
def opt_spend (a b : ℚ) : ℚ := (2 - 2 * b) / a

/-- State of `SPBBidder` (src/Bidder.py lines 200-246). -/
structure SPBState extends IMPCState where
  spb_memory : ℕ
  explore_bid_max : ℚ
  optimal_budget : ℚ
  spend_history : List ℚ
  value_history : List ℚ

/-- Embeds `np.sum(prices[won_mask])`: sum of the prices selected by the
boolean mask. -/
def maskedSum (prices : List ℚ) (mask : List Bool) : ℚ :=
  (List.zip prices mask).foldl (fun acc pm => if pm.2 then acc + pm.1 else acc) 0

namespace SPBBidder

/-- Embeds `SPBBidder.bid`, inherited unchanged from `IMPCBudgetBidder`. -/
def bid (st : SPBState) (value estimated_CTR : ℚ) : ℚ :=
  IMPCBudgetBidder.bid st.toIMPCState value estimated_CTR

/-- Embeds `SPBBidder.update` (src/Bidder.py lines 226-240).  The external
scipy `fit_model` call is abstracted as the oracle `fit`; `fit = none` models
the caught exception path that returns `model_ready = False`, and
`fit = some (a, b)` the successful fit.  `hasContexts` models
`contexts is not None`. -/
def update (st : SPBState) (fit : List ℚ → List ℚ → Option (ℚ × ℚ))
    (hasContexts : Bool) (prices : List ℚ) (won_mask : List Bool)
    (sum_values : ℚ) : SPBState :=
  let sh := if hasContexts then
      takeLastPy st.spb_memory (st.spend_history ++ [maskedSum prices won_mask])
    else st.spend_history
  let vh := if hasContexts then
      takeLastPy st.spb_memory (st.value_history ++ [sum_values])
    else st.value_history
  match (if 1 < sh.length then fit sh vh else none) with
  | some ab =>
      { st with spend_history := sh, value_history := vh,
                optimal_budget := min (opt_spend ab.1 ab.2) st.budget,
                spending := 0 }
  | none =>
      { st with spend_history := sh, value_history := vh,
                optimal_budget := -1, spending := 0 }

/-- Embeds `SPBBidder.reset` (src/Bidder.py lines 242-246): the parent reset
plus clearing the SPB model state.  As in the parent, `step_spending` is not
touched. -/
def reset (st : SPBState) : SPBState :=
  { st with bid2spend_history := [], spending := 0, roi_bid := 1,
            optimal_budget := -1, spend_history := [], value_history := [] }

end SPBBidder

/-- State of `MPCBidder` (the PID-on-ROI controller, src/Bidder.py
lines 249-317). -/
structure MPCState where
  budget : ℚ
  spending : ℚ
  rounds_per_step : ℕ
  rounds_per_iter : ℕ
  bid_step : ℚ
  roi_bid : ℚ
  prediction_diff : ℚ
  estimated_value : ℚ
  memory : ℕ
  value_history : List ℚ
  estimated_value_history : List ℚ
  bid_min : ℚ
  bid_max : ℚ
  kp : ℚ
  ki : ℚ
  kd : ℚ
  error_p : ℚ
  last_error_p : ℚ
  error_i : ℚ
  error_d : ℚ

namespace MPCBidder

/-- Embeds `MPCBidder.charge` (src/Bidder.py lines 273-296): spend/value are
accumulated only for positive prices, then at a step boundary the PID update
of `roi_bid` runs. -/
def charge (st : MPCState) (price : ℚ) (cur_round : ℕ)
    (estimated_CTR value : ℚ) : MPCState :=
  let st1 := if 0 < price then
      { st with spending := st.spending + price
                estimated_value := st.estimated_value + estimated_CTR * value }
    else st
  if cur_round % st1.rounds_per_step = 0 then
    let v := st1.estimated_value * st1.prediction_diff
    if 0 < st1.spending ∧ 0 < v then
      let roi := v / st1.spending
      let ep := roi - 1
      let ei := st1.error_i + ep
      let ed := ep - st1.last_error_p
      let control := st1.kp * ep + st1.ki * ei + st1.kd * ed
      let b := st1.roi_bid + control
      let rb1 := min (max b (st1.roi_bid - st1.bid_step)) (st1.roi_bid + st1.bid_step)
      { st1 with error_p := ep, error_i := ei, error_d := ed, last_error_p := ep,
                 roi_bid := min (max rb1 st1.bid_min) st1.bid_max }
    else
      { st1 with roi_bid := min st1.bid_max (st1.roi_bid + st1.bid_step) }
  else st1

/-- Embeds `MPCBidder.bid` (src/Bidder.py lines 298-301). -/
def bid (st : MPCState) (value estimated_CTR : ℚ) : ℚ :=
  if st.spending < st.budget then value * estimated_CTR * st.roi_bid else 0

end MPCBidder

/-- The monotonicity invariant maintained by `increasing_subsequence`: the
spend (second) coordinate of the result list is non-decreasing in position. -/
def sortedSnd (res : List (ℚ × ℚ)) : Prop :=
  ∀ i j : ℕ, i < j → j < res.length → (res.getD i (0, 0)).2 ≤ (res.getD j (0, 0)).2

namespace RealModel

/-- Embeds `spend2value(spend, a, b)` (src/Bidder.py lines 175-176) over the
reals, since it involves a square root. -/
noncomputable def spend2value (spend a b : ℝ) : ℝ :=
  (Real.sqrt (b * b + 2 * a * spend) - b) / a

/-- Embeds `opt_spend(a, b)` (src/Bidder.py lines 179-180) over the reals,
for comparison against the derivative of `spend2value`. -/
noncomputable def opt_spend (a b : ℝ) : ℝ := (2 - 2 * b) / a

end RealModel

/-- C1: the denoise step `aggregate_near_sample` is claimed to merge every
sample into exactly one output run-mean with nothing discarded; in fact on the
bid-ascending input `[(1,10),(2,20)]` the `else` branch flushes the current
run and resets it to `[]` without keeping the triggering sample, so `(2,20)`
is silently discarded and the output is just `[(1,10)]`. -/
theorem C1_denoise_drops_boundary_sample :
    aggregate_near_sample [(1, 10), (2, 20)] (1 / 1000000) = [(1, 10)] ∧
    ((2 : ℚ), (20 : ℚ)) ∉ aggregate_near_sample [(1, 10), (2, 20)] (1 / 1000000) := by
  have h : aggregate_near_sample [(1, 10), (2, 20)] (1 / 1000000) = [(1, 10)] := by
    norm_num [aggregate_near_sample, aggLoop, runMean]
  refine ⟨h, ?_⟩
  rw [h]
  norm_num

/-- C2 (amended): `reset` on the IMPC bidder restores `roi_bid = 1`, empties
the bid-to-spend history and zeroes `spending`, and on the SPB bidder
additionally clears the model state; but in both cases `step_spending` is left
unchanged (and the budget is not redrawn).  The PID bidder defines no `reset`
at all (it is commented out in the source). -/
theorem C2_reset_amended (st : IMPCState) (sst : SPBState) :
    ((IMPCBudgetBidder.reset st).roi_bid = 1 ∧
     (IMPCBudgetBidder.reset st).bid2spend_history = [] ∧
     (IMPCBudgetBidder.reset st).spending = 0 ∧
     (IMPCBudgetBidder.reset st).step_spending = st.step_spending ∧
     (IMPCBudgetBidder.reset st).budget = st.budget) ∧
    ((SPBBidder.reset sst).roi_bid = 1 ∧
     (SPBBidder.reset sst).bid2spend_history = [] ∧
     (SPBBidder.reset sst).spending = 0 ∧
     (SPBBidder.reset sst).optimal_budget = -1 ∧
     (SPBBidder.reset sst).spend_history = [] ∧
     (SPBBidder.reset sst).value_history = [] ∧
     (SPBBidder.reset sst).step_spending = sst.step_spending ∧
     (SPBBidder.reset sst).budget = sst.budget) :=
  ⟨⟨rfl, rfl, rfl, rfl, rfl⟩, ⟨rfl, rfl, rfl, rfl, rfl, rfl, rfl, rfl⟩⟩

/-- C2 (counterexample): charging a freshly constructed IMPC bidder 5 at a
non-boundary round leaves `step_spending = 5`, and `reset` does not zero it,
so the reset controller is not in the freshly-constructed state (which has
`step_spending = 0`). -/
theorem C2_reset_keeps_step_spending :
    (IMPCBudgetBidder.reset (IMPCBudgetBidder.charge
      (IMPCBudgetBidder.init 10 10 2 (1 / 10) 3) 5 1 0 0)).step_spending ≠ 0 ∧
    (IMPCBudgetBidder.init 10 10 2 (1 / 10) 3).step_spending = 0 := by
  constructor
  · norm_num [IMPCBudgetBidder.reset, IMPCBudgetBidder.charge, IMPCBudgetBidder.init]
  · rfl

/-- C4: the curve solver on the history `[(1,10),(2,20)]` with target spend 15
returns exactly `3/2`.  (Internally the denoise step drops `(2,20)`, and the
result arises by extrapolating through the origin and `(bid 1, spend 10)`.) -/
theorem C4_solve_example : impc [(1, 10), (2, 20)] 15 = 3 / 2 := by
  norm_num [impc, increasing_subsequence, aggregate_near_sample, aggLoop, sortPairs,
    insertPair, pairLt, runMean, insertStep, bsearch, bsearchFuel, impcLoop, liner_solve]

/-- C7: for every state, `bid` of the IMPC bidder (inherited unchanged by the
SPB bidder) and of the MPC bidder returns `value * estimated_CTR * roi_bid`
when `spending < budget`, and `0` as soon as `spending ≥ budget`. -/
theorem C7_bid_gate (st : IMPCState) (mst : MPCState) (sst : SPBState)
    (value estimated_CTR : ℚ) :
    IMPCBudgetBidder.bid st value estimated_CTR
        = (if st.spending < st.budget then value * estimated_CTR * st.roi_bid else 0) ∧
    MPCBidder.bid mst value estimated_CTR
        = (if mst.spending < mst.budget then value * estimated_CTR * mst.roi_bid else 0) ∧
    SPBBidder.bid sst value estimated_CTR
        = IMPCBudgetBidder.bid sst.toIMPCState value estimated_CTR :=
  ⟨rfl, rfl, rfl⟩

/-- C6: one `charge` call on the IMPC bidder moves `roi_bid` by at most
`bid_step` in absolute value (assuming the configured `bid_step` is
nonnegative): the exploration branch adds exactly `bid_step`, the solver
branch clamps to `[roi_bid - bid_step, roi_bid + bid_step]`, and off step
boundaries `roi_bid` does not move. -/
theorem C6_roi_moves_at_most_bid_step (st : IMPCState) (price : ℚ) (cur_round : ℕ)
    (estimated_CTR vlaue : ℚ) (h : 0 ≤ st.bid_step) :
    |(IMPCBudgetBidder.charge st price cur_round estimated_CTR vlaue).roi_bid - st.roi_bid|
      ≤ st.bid_step := by
  unfold IMPCBudgetBidder.charge
  dsimp only
  split
  · unfold IMPCBudgetBidder.calc_roi_bid
    dsimp only
    split
    · have e : st.roi_bid + st.bid_step - st.roi_bid = st.bid_step := by ring
      rw [e, abs_of_nonneg h]
    · rw [abs_le]
      constructor
      · have h1 : st.roi_bid - st.bid_step ≤
            min (max (impc (st.bid2spend_history ++ [(st.roi_bid, st.step_spending + price)])
                st.target_step_spending) (st.roi_bid - st.bid_step)) (st.roi_bid + st.bid_step) :=
          le_min (le_max_right _ _) (by linarith)
        linarith
      · have h2 : min (max (impc (st.bid2spend_history ++ [(st.roi_bid, st.step_spending + price)])
            st.target_step_spending) (st.roi_bid - st.bid_step)) (st.roi_bid + st.bid_step)
              ≤ st.roi_bid + st.bid_step := min_le_right _ _
        linarith
  · simpa using h

/-- C6 witness: a freshly constructed bidder with `bid_step = 1/10` charged 5
at round 1 keeps `roi_bid` within `bid_step` of its previous value. -/
theorem C6_witness :
    (0 : ℚ) ≤ (IMPCBudgetBidder.init 10 10 2 (1 / 10) 3).bid_step ∧
    |(IMPCBudgetBidder.charge (IMPCBudgetBidder.init 10 10 2 (1 / 10) 3) 5 1 0 0).roi_bid
        - (IMPCBudgetBidder.init 10 10 2 (1 / 10) 3).roi_bid|
      ≤ (IMPCBudgetBidder.init 10 10 2 (1 / 10) 3).bid_step :=
  ⟨by norm_num [IMPCBudgetBidder.init],
   C6_roi_moves_at_most_bid_step (IMPCBudgetBidder.init 10 10 2 (1 / 10) 3) 5 1 0 0
     (by norm_num [IMPCBudgetBidder.init])⟩

/-- C9: the bid-cap bidder's `roi_bid` is 1 at construction and is capped at 1
after every `charge`; consequently the submitted bid never exceeds
`value * estimated_CTR` (for nonnegative value and CTR). -/
theorem C9_bidcap_never_above_one (st : IMPCState) (price : ℚ) (cur_round : ℕ)
    (estimated_CTR v value ctr : ℚ) (hv : 0 ≤ value) (hc : 0 ≤ ctr)
    (budget : ℚ) (ri rs : ℕ) (bs : ℚ) (m : ℕ) :
    (IMPCBudgetBidder.init budget ri rs bs m).roi_bid ≤ 1 ∧
    (BidCapBidder.charge st price cur_round estimated_CTR v).roi_bid ≤ 1 ∧
    IMPCBudgetBidder.bid (BidCapBidder.charge st price cur_round estimated_CTR v) value ctr
      ≤ value * ctr := by
  have hcap : (BidCapBidder.charge st price cur_round estimated_CTR v).roi_bid ≤ 1 :=
    min_le_right _ _
  refine ⟨le_refl 1, hcap, ?_⟩
  unfold IMPCBudgetBidder.bid
  split
  · calc value * ctr * (BidCapBidder.charge st price cur_round estimated_CTR v).roi_bid
        ≤ value * ctr * 1 := mul_le_mul_of_nonneg_left hcap (mul_nonneg hv hc)
      _ = value * ctr := mul_one _
  · exact mul_nonneg hv hc

/-- C9 witness: at a concrete post-charge state, `roi_bid ≤ 1` and the bid for
value 3, CTR 2 does not exceed `3 * 2`. -/
theorem C9_witness :
    (0 : ℚ) ≤ 3 ∧ (0 : ℚ) ≤ 2 ∧
    ((IMPCBudgetBidder.init 10 10 2 (1 / 10) 3).roi_bid ≤ 1 ∧
     (BidCapBidder.charge (IMPCBudgetBidder.init 10 10 2 (1 / 10) 3) 5 1 0 0).roi_bid ≤ 1 ∧
     IMPCBudgetBidder.bid
        (BidCapBidder.charge (IMPCBudgetBidder.init 10 10 2 (1 / 10) 3) 5 1 0 0) 3 2
       ≤ 3 * 2) :=
  ⟨by norm_num, by norm_num,
   C9_bidcap_never_above_one (IMPCBudgetBidder.init 10 10 2 (1 / 10) 3) 5 1 0 0 3 2
     (by norm_num) (by norm_num) 10 10 2 (1 / 10) 3⟩

/-- C10: every budget-restricted `charge` with a positive price adds the price
to `spending` unconditionally, even when `spending` already reached the
budget, in which case the cumulative spending strictly exceeds the budget;
no charge is capped or rejected. -/
theorem C10_charge_unconditional (bst : BRBState) (st : IMPCState) (mst : MPCState)
    (price : ℚ) (r : ℕ) (estimated_CTR value : ℚ) (hp : 0 < price)
    (hb : bst.budget ≤ bst.spending) (hi : st.budget ≤ st.spending)
    (hm : mst.budget ≤ mst.spending) :
    (BudgetRistrictedBidder.charge bst price r estimated_CTR value).spending
        = bst.spending + price ∧
    bst.budget < (BudgetRistrictedBidder.charge bst price r estimated_CTR value).spending ∧
    (IMPCBudgetBidder.charge st price r estimated_CTR value).spending
        = st.spending + price ∧
    st.budget < (IMPCBudgetBidder.charge st price r estimated_CTR value).spending ∧
    (MPCBidder.charge mst price r estimated_CTR value).spending
        = mst.spending + price ∧
    mst.budget < (MPCBidder.charge mst price r estimated_CTR value).spending := by
  have h1 : (BudgetRistrictedBidder.charge bst price r estimated_CTR value).spending
      = bst.spending + price := rfl
  have h2 : (IMPCBudgetBidder.charge st price r estimated_CTR value).spending
      = st.spending + price := by
    unfold IMPCBudgetBidder.charge
    dsimp only
    split <;> rfl
  have h3 : (MPCBidder.charge mst price r estimated_CTR value).spending
      = mst.spending + price := by
    unfold MPCBidder.charge
    dsimp only
    rw [if_pos hp]
    split
    · split <;> rfl
    · rfl
  refine ⟨h1, ?_, h2, ?_, h3, ?_⟩
  · rw [h1]; linarith
  · rw [h2]; linarith
  · rw [h3]; linarith

/-- C10 witness: a bidder already exactly at its budget (10 of 10) charged a
positive price 5 ends with spending 15. -/
theorem C10_witness :
    (0 : ℚ) < 5 ∧ (⟨10, 10⟩ : BRBState).budget ≤ (⟨10, 10⟩ : BRBState).spending ∧
    (BudgetRistrictedBidder.charge ⟨10, 10⟩ 5 1 0 0).spending = 10 + 5 := by
  refine ⟨by norm_num, by norm_num, ?_⟩
  have := C10_charge_unconditional ⟨10, 10⟩
    { IMPCBudgetBidder.init 10 10 2 (1 / 10) 3 with spending := 10 }
    ⟨10, 10, 2, 10, 1/10, 1, 1, 0, 3, [], [], 0, 2, 1, 1, 1, 0, 0, 0, 0⟩
    5 1 0 0 (by norm_num) (by norm_num) (by norm_num [IMPCBudgetBidder.init]) (by norm_num)
  exact this.1

/-- C8: after every SPB `update`, either `optimal_budget = -1` together with
its reason (fewer than two spend-history points, or the abstracted curve fit
returned no parameters), or the fit succeeded on the updated histories with
parameters `(a, b)` and `optimal_budget = min (opt_spend a b) budget`, which
in particular never exceeds the budget. -/
theorem C8_optimal_budget_shape (st : SPBState) (fit : List ℚ → List ℚ → Option (ℚ × ℚ))
    (hasContexts : Bool) (prices : List ℚ) (won_mask : List Bool) (sum_values : ℚ) :
    ((SPBBidder.update st fit hasContexts prices won_mask sum_values).optimal_budget = -1 ∧
      ((SPBBidder.update st fit hasContexts prices won_mask sum_values).spend_history.length ≤ 1 ∨
        fit (SPBBidder.update st fit hasContexts prices won_mask sum_values).spend_history
          (SPBBidder.update st fit hasContexts prices won_mask sum_values).value_history
          = none)) ∨
    (∃ a b, 1 < (SPBBidder.update st fit hasContexts prices won_mask sum_values).spend_history.length ∧
      fit (SPBBidder.update st fit hasContexts prices won_mask sum_values).spend_history
        (SPBBidder.update st fit hasContexts prices won_mask sum_values).value_history
        = some (a, b) ∧
      (SPBBidder.update st fit hasContexts prices won_mask sum_values).optimal_budget
        = min (opt_spend a b) st.budget ∧
      (SPBBidder.update st fit hasContexts prices won_mask sum_values).optimal_budget
        ≤ st.budget) := by
  unfold SPBBidder.update
  dsimp only
  split
  case _ ab heq =>
    by_cases hl : 1 < (if hasContexts = true then
        takeLastPy st.spb_memory (st.spend_history ++ [maskedSum prices won_mask])
      else st.spend_history).length
    · rw [if_pos hl] at heq
      refine Or.inr ⟨ab.1, ab.2, hl, by simpa using heq, rfl, min_le_right _ _⟩
    · rw [if_neg hl] at heq
      exact absurd heq (by simp)
  case _ heq =>
    by_cases hl : 1 < (if hasContexts = true then
        takeLastPy st.spb_memory (st.spend_history ++ [maskedSum prices won_mask])
      else st.spend_history).length
    · rw [if_pos hl] at heq
      exact Or.inl ⟨rfl, Or.inr heq⟩
    · exact Or.inl ⟨rfl, Or.inl (by dsimp only; omega)⟩

/-- Helper: the binary search result never exceeds the right bound. -/
lemma bsearchFuel_le (res : List (ℚ × ℚ)) (v : ℚ) :
    ∀ fuel l r : ℕ, l ≤ r → bsearchFuel res v fuel l r ≤ r := by
  intro fuel
  induction fuel with
  | zero => intro l r h; simpa [bsearchFuel] using h
  | succ fuel ih =>
    intro l r h
    simp only [bsearchFuel]
    split
    case isTrue hlr =>
      split
      · exact ih _ _ (by omega)
      · have h2 := ih l ((l + r) / 2) (by omega)
        omega
    case isFalse hlr => exact h

/-- Helper: the loop invariant on the left bound of the binary search — the
element just below the bound (if any) has spend at most `v`. -/
lemma bsearchFuel_lower (res : List (ℚ × ℚ)) (v : ℚ) :
    ∀ fuel l r : ℕ, (l = 0 ∨ (res.getD (l - 1) (0, 0)).2 ≤ v) →
      (bsearchFuel res v fuel l r = 0 ∨
        (res.getD (bsearchFuel res v fuel l r - 1) (0, 0)).2 ≤ v) := by
  intro fuel
  induction fuel with
  | zero => intro l r h; simpa [bsearchFuel] using h
  | succ fuel ih =>
    intro l r h
    simp only [bsearchFuel]
    split
    · split
      case isTrue hmid => exact ih _ _ (Or.inr (by simpa using hmid))
      case isFalse hmid => exact ih _ _ h
    · exact h

/-- Helper: the loop invariant on the right bound of the binary search — with
enough fuel, the element at the returned slot (if in range) has spend
strictly above `v`. -/
lemma bsearchFuel_upper (res : List (ℚ × ℚ)) (v : ℚ) :
    ∀ fuel l r : ℕ, r - l ≤ fuel → l ≤ r →
      (r = res.length ∨ v < (res.getD r (0, 0)).2) →
      (bsearchFuel res v fuel l r = res.length ∨
        v < (res.getD (bsearchFuel res v fuel l r) (0, 0)).2) := by
  intro fuel
  induction fuel with
  | zero =>
    intro l r hf hlr h
    have hrl : l = r := by omega
    subst hrl
    simpa [bsearchFuel] using h
  | succ fuel ih =>
    intro l r hf hlr h
    simp only [bsearchFuel]
    split
    case isTrue hlt =>
      split
      case isTrue hmid => exact ih _ _ (by omega) (by omega) h
      case isFalse hmid =>
        exact ih _ _ (by omega) (by omega) (Or.inr (not_le.mp hmid))
    case isFalse hlt =>
      have hrl : l = r := by omega
      rw [hrl]
      exact h

/-- Helper: `getD` after `set` at the written index. -/
lemma getD_set_self (l : List (ℚ × ℚ)) (i : ℕ) (a d : ℚ × ℚ) (h : i < l.length) :
    (l.set i a).getD i d = a := by
  rw [List.getD_eq_getElem _ d (by simpa using h)]
  exact List.getElem_set_self _

/-- Helper: `getD` after `set` at any other index. -/
lemma getD_set_ne (l : List (ℚ × ℚ)) (i k : ℕ) (a d : ℚ × ℚ) (h : k ≠ i) :
    (l.set i a).getD k d = l.getD k d := by
  by_cases hk : k < l.length
  · rw [List.getD_eq_getElem _ d (by simpa using hk), List.getD_eq_getElem _ d hk]
    exact List.getElem_set_ne (by omega) _
  · rw [List.getD_eq_default _ d (by simpa using not_lt.mp hk),
      List.getD_eq_default _ d (not_lt.mp hk)]

/-- Key step for C5: one insertion/overwrite step of the envelope scan
preserves the non-decreasing-spend invariant. -/
lemma sortedSnd_insertStep {res : List (ℚ × ℚ)} (hs : sortedSnd res) (s : ℚ × ℚ) :
    sortedSnd (insertStep res s) := by
  have hble : bsearch res s.2 ≤ res.length :=
    bsearchFuel_le res s.2 res.length 0 res.length (Nat.zero_le _)
  have hlow : bsearch res s.2 = 0 ∨ (res.getD (bsearch res s.2 - 1) (0, 0)).2 ≤ s.2 :=
    bsearchFuel_lower res s.2 res.length 0 res.length (Or.inl rfl)
  have hupp : bsearch res s.2 = res.length ∨ s.2 < (res.getD (bsearch res s.2) (0, 0)).2 :=
    bsearchFuel_upper res s.2 res.length 0 res.length (by omega) (Nat.zero_le _) (Or.inl rfl)
  unfold insertStep
  dsimp only
  by_cases hbl : bsearch res s.2 = res.length
  · rw [if_pos hbl]
    intro i j hij hj
    rw [List.length_append] at hj
    simp only [List.length_singleton] at hj
    by_cases hjl : j < res.length
    · rw [List.getD_append _ _ _ _ (by omega), List.getD_append _ _ _ _ hjl]
      exact hs i j hij hjl
    · have hjeq : j = res.length := by omega
      subst hjeq
      rw [List.getD_append _ _ _ _ (by omega),
        List.getD_append_right _ _ _ _ (le_refl _), Nat.sub_self]
      simp only [List.getD_cons_zero]
      rcases hlow with h0 | hle
      · omega
      · rcases Nat.lt_or_ge i (res.length - 1) with hi | hi
        · exact le_trans (hs i (res.length - 1) hi (by omega)) (by rwa [hbl] at hle)
        · have hieq : i = res.length - 1 := by omega
          subst hieq
          rwa [hbl] at hle
  · rw [if_neg hbl]
    have hblt : bsearch res s.2 < res.length := lt_of_le_of_ne hble hbl
    intro i j hij hj
    rw [List.length_set] at hj
    by_cases hjb : j = bsearch res s.2
    · subst hjb
      rw [getD_set_self _ _ _ _ hblt, getD_set_ne _ _ _ _ _ (by omega)]
      rcases hlow with h0 | hle
      · omega
      · rcases Nat.lt_or_ge i (bsearch res s.2 - 1) with hi | hi
        · exact le_trans (hs i (bsearch res s.2 - 1) hi (by omega)) hle
        · have hieq : i = bsearch res s.2 - 1 := by omega
          subst hieq
          exact hle
    · by_cases hib : i = bsearch res s.2
      · subst hib
        rw [getD_set_self _ _ _ _ hblt, getD_set_ne _ _ _ _ _ hjb]
        rcases hupp with h0 | hlt
        · omega
        · exact le_of_lt (lt_of_lt_of_le hlt (hs _ j hij hj))
      · rw [getD_set_ne _ _ _ _ _ hib, getD_set_ne _ _ _ _ _ hjb]
        exact hs i j hij hj

/-- Helper: the envelope scan preserves the invariant from any starting
accumulator. -/
lemma sortedSnd_foldl (samples : List (ℚ × ℚ)) :
    ∀ acc, sortedSnd acc → sortedSnd (samples.foldl insertStep acc) := by
  induction samples with
  | nil => intro acc h; exact h
  | cons s rest ih => intro acc h; exact ih _ (sortedSnd_insertStep h s)

/-- C5: for every input sample list, the monotonic-envelope step
`increasing_subsequence` produces a list whose spend (second) coordinates are
non-decreasing from first to last. -/
theorem C5_envelope_monotone (samples : List (ℚ × ℚ)) :
    (increasing_subsequence samples).Pairwise (fun p q => p.2 ≤ q.2) := by
  have hs : sortedSnd (increasing_subsequence samples) :=
    sortedSnd_foldl samples [] (by intro i j hij hj; simp at hj)
  rw [List.pairwise_iff_getElem]
  intro i j hi hj hij
  have h := hs i j hij hj
  rwa [List.getD_eq_getElem _ _ hi, List.getD_eq_getElem _ _ hj] at h

/-- Helper for C3: the derivative of `spend2value` with respect to spend at
`opt_spend a b` is `1 / (2 - b)` (for `a > 0`, `b < 2`), not 1 in general. -/
lemma spend2value_hasDerivAt (a b : ℝ) (ha : 0 < a) (hb2 : b < 2) :
    HasDerivAt (fun s => RealModel.spend2value s a b) (1 / (2 - b))
      (RealModel.opt_spend a b) := by
  have ha' : a ≠ 0 := ne_of_gt ha
  have hb' : (2 : ℝ) - b ≠ 0 := ne_of_gt (by linarith)
  have harg : b * b + 2 * a * RealModel.opt_spend a b = (2 - b) ^ 2 := by
    unfold RealModel.opt_spend
    field_simp
    ring
  have hne : b * b + 2 * a * RealModel.opt_spend a b ≠ 0 := by
    rw [harg]
    exact pow_ne_zero 2 hb'
  have hu : HasDerivAt (fun s : ℝ => b * b + 2 * a * s) (2 * a) (RealModel.opt_spend a b) := by
    simpa using ((hasDerivAt_id (RealModel.opt_spend a b)).const_mul (2 * a)).const_add (b * b)
  have hsqrt := (Real.hasDerivAt_sqrt hne).comp (RealModel.opt_spend a b) hu
  have hsq : Real.sqrt (b * b + 2 * a * RealModel.opt_spend a b) = 2 - b := by
    rw [harg, Real.sqrt_sq (by linarith)]
  have final := (hsqrt.sub_const b).div_const a
  have hconst : 1 / (2 * Real.sqrt (b * b + 2 * a * RealModel.opt_spend a b)) * (2 * a) / a
      = 1 / (2 - b) := by
    rw [hsq]
    field_simp
    ring
  rw [hconst] at final
  simpa [RealModel.spend2value, Function.comp] using final

/-- Helper for C3: `opt_spend a b` is the spend level at which the modelled
value equals the spend itself (unit average return), for `a > 0`, `b ≤ 2`. -/
lemma spend2value_fixed_point (a b : ℝ) (ha : 0 < a) (hb2 : b ≤ 2) :
    RealModel.spend2value (RealModel.opt_spend a b) a b = RealModel.opt_spend a b := by
  have ha' : a ≠ 0 := ne_of_gt ha
  have harg : b * b + 2 * a * RealModel.opt_spend a b = (2 - b) ^ 2 := by
    unfold RealModel.opt_spend
    field_simp
    ring
  unfold RealModel.spend2value RealModel.opt_spend
  rw [show b * b + 2 * a * ((2 - 2 * b) / a) = (2 - b) ^ 2 from harg,
    Real.sqrt_sq (by linarith)]
  ring

/-- C3 (counterexample): at `a = 1`, `b = 0` — which satisfy the claim's
hypotheses `a > 0`, `0 ≤ b` — the derivative of `spend2value` at
`opt_spend 1 0 = 2` is `1/2`, so it is NOT 1: `opt_spend` is not the spend
level at which marginal value equals 1. -/
theorem C3_marginal_value_counterexample :
    HasDerivAt (fun s => RealModel.spend2value s 1 0) (1 / 2) (RealModel.opt_spend 1 0) ∧
    ¬ HasDerivAt (fun s => RealModel.spend2value s 1 0) 1 (RealModel.opt_spend 1 0) := by
  have h := spend2value_hasDerivAt 1 0 (by norm_num) (by norm_num)
  norm_num at h
  refine ⟨h, fun hc => ?_⟩
  have hu := hc.unique h
  norm_num at hu

/-- C3 (amended): for `a > 0` and `0 ≤ b < 2`, the marginal value at
`opt_spend a b = (2 - 2b)/a` is `1/(2 - b)` (so it equals 1 only when
`b = 1`), and `opt_spend a b` is instead the spend level at which
`spend2value` equals the spend itself (average value per unit spend is 1). -/
theorem C3_opt_spend_amended (a b : ℝ) (ha : 0 < a) (hb : 0 ≤ b) (hb2 : b < 2) :
    HasDerivAt (fun s => RealModel.spend2value s a b) (1 / (2 - b)) (RealModel.opt_spend a b) ∧
    RealModel.spend2value (RealModel.opt_spend a b) a b = RealModel.opt_spend a b :=
  ⟨spend2value_hasDerivAt a b ha hb2, spend2value_fixed_point a b ha (le_of_lt hb2)⟩

/-- C3 witness: the amended statement instantiated at `a = 1`, `b = 1`. -/
theorem C3_witness :
    (0 : ℝ) < 1 ∧ (0 : ℝ) ≤ 1 ∧ (1 : ℝ) < 2 ∧
    (HasDerivAt (fun s => RealModel.spend2value s 1 1) (1 / (2 - 1)) (RealModel.opt_spend 1 1) ∧
     RealModel.spend2value (RealModel.opt_spend 1 1) 1 1 = RealModel.opt_spend 1 1) :=
  ⟨by norm_num, by norm_num, by norm_num,
   C3_opt_spend_amended 1 1 (by norm_num) (by norm_num) (by norm_num)⟩
